import Mathlib

/-!
Verification of kelmore_files/files.py against its specification.

The filesystem itself (the os/shutil/open primitives the repository calls)
is an external collaborator; it is modelled here as a finite tree of
entries (`Entry`), with string paths resolved by splitting on the
separator.  `Entry.link` models a dangling symbolic link (a directory
entry that os.path.exists reports as absent but os.path.islink reports
as present); symlink targets are outside the model.  All repository
functions are translated directly from the source, with filesystem state
passed explicitly; a Python exception is an `Err` value, and a mutating
operation returns the (possibly mutated) state together with the raised
error, since a raised exception does not roll back filesystem mutations.
The source class FileIO appears here under the name FileIo.
-/

/-- Python exceptions raised by the code under study. -/
inductive Err where
  | valueError : String → Err
  | ioError : String → Err
  | osError : String → Err
deriving DecidableEq

/-! ## Path-string primitives (os.path collaborators) -/

/-- Splits a character list on slashes into the nonempty path components,
accumulating the current (reversed) component in `cur`. -/
def splitSlashAux (cur : List Char) : List Char → List String
  | [] => if cur.isEmpty then [] else [String.mk cur.reverse]
  | c :: rest =>
    if c = '/' then
      if cur.isEmpty then splitSlashAux [] rest
      else String.mk cur.reverse :: splitSlashAux [] rest
    else splitSlashAux (c :: cur) rest

/-- The component list of a path string: nonempty runs between slashes.
This is how the modelled filesystem resolves a path string. -/
def splitPath (s : String) : List String := splitSlashAux [] s.data

/-- os.path.join on two components, as the source uses it
(FileTools.concat): the second wins if absolute; otherwise a single
separator is inserted unless the first is empty or already ends in one. -/
def joinPath (a b : String) : String :=
  if b.data.head? = some '/' then b
  else if a.data.isEmpty || a.data.getLast? = some '/' then a ++ b
  else a ++ "/" ++ b

/-- The prefix of the character list up to and including the last slash
(empty if there is no slash): posixpath.dirname's head. -/
def dirnameHead (l : List Char) : List Char :=
  (l.reverse.dropWhile (fun c => !(c = '/'))).reverse

/-- posixpath.dirname: keep everything before the last slash; a head that
consists only of slashes is kept as is, otherwise trailing slashes are
stripped. -/
def dirname (s : String) : String :=
  let head := dirnameHead s.data
  if !head.isEmpty && head.any (fun c => !(c = '/')) then
    String.mk ((head.reverse.dropWhile (fun c => c = '/')).reverse)
  else String.mk head

/-- The index of the last occurrence of `c` in `l`, if any. -/
def lastIdxOf (l : List Char) (c : Char) : Option Nat :=
  ((l.enum.filter (fun x => x.2 = c)).getLast?).map (fun x => x.1)

/-- os.path.splitext: splits at the last dot, provided it lies after the
last slash and the base name is not made of leading dots only. -/
def splitextP (p : String) : String × String :=
  let l := p.data
  match lastIdxOf l '.' with
  | none => (p, "")
  | some di =>
    let si : Nat := match lastIdxOf l '/' with | some k => k + 1 | none => 0
    if decide (si ≤ di) && ((l.drop si).take (di - si)).any (fun c => !(c = '.')) then
      (String.mk (l.take di), String.mk (l.drop di))
    else (p, "")

/-- Iterating over a Python text file yields the lines with their
terminating newline kept (the last line may lack one). -/
def pyLinesAux (cur : List Char) : List Char → List String
  | [] => if cur.isEmpty then [] else [String.mk cur.reverse]
  | c :: rest =>
    if c = '\n' then String.mk (cur.reverse ++ ['\n']) :: pyLinesAux [] rest
    else pyLinesAux (c :: cur) rest

/-- The Python lines of a file content (terminators preserved). -/
def pyLines (s : String) : List String := pyLinesAux [] s.data

/-- Python str.isspace characters relevant to str.split(). -/
def isPySpace (c : Char) : Bool :=
  c = ' ' || c = '\t' || c = '\n' || c = '\r' || c = '\x0b' || c = '\x0c'

/-- Python str.split() with no argument: maximal runs of
non-whitespace characters, empties discarded. -/
def pySplitAux (cur : List Char) : List Char → List String
  | [] => if cur.isEmpty then [] else [String.mk cur.reverse]
  | c :: rest =>
    if isPySpace c then
      if cur.isEmpty then pySplitAux [] rest
      else String.mk cur.reverse :: pySplitAux [] rest
    else pySplitAux (c :: cur) rest

/-- Python line.split() on a line. -/
def pySplitWs (s : String) : List String := pySplitAux [] s.data

/-! ## The modelled filesystem -/

/-- One filesystem node: a regular file with its text content, a dangling
symbolic link, or a directory with its named children in enumeration
order. -/
inductive Entry where
  | file : String → Entry
  | link : Entry
  | dir : List (String × Entry) → Entry

/-- Whether a node is a directory. -/
def Entry.isDir : Entry → Bool
  | .dir _ => true
  | _ => false

/-- Whether a node is a regular file. -/
def Entry.isFile : Entry → Bool
  | .file _ => true
  | _ => false

/-- Whether a node is a (dangling) symbolic link. -/
def Entry.isLink : Entry → Bool
  | .link => true
  | _ => false

/-- Resolves a component path in the tree. -/
def lookupP : Entry → List String → Option Entry
  | e, [] => some e
  | .dir cs, n :: rest =>
    match cs.find? (fun c => c.1 = n) with
    | some c => lookupP c.2 rest
    | none => none
  | _, _ :: _ => none

/-- Applies `f` to the node at the given component path, leaving the tree
unchanged if the path does not resolve through directories. -/
def modifyAtP (f : Entry → Entry) : Entry → List String → Entry
  | e, [] => f e
  | .dir cs, m :: rest =>
    .dir (cs.map (fun c => if c.1 = m then (c.1, modifyAtP f c.2 rest) else c))
  | e, _ :: _ => e

/-- Drops the child named `n` of a directory node. -/
def eraseChild (n : String) : Entry → Entry
  | .dir cs => .dir (cs.filter (fun c => !(c.1 = n)))
  | e => e

/-- Removes the entry at a nonempty component path (os.remove /
os.unlink / shutil.rmtree all remove the directory entry itself; in a
tree model removing the entry removes its whole subtree). -/
def removeAtP (fs : Entry) (p : List String) : Entry :=
  match p with
  | [] => fs
  | _ :: _ => modifyAtP (eraseChild (p.getLastD "")) fs p.dropLast

/-- Creates or truncates the regular file at a component path, as
open(path, "w") followed by write(text) does.  Fails (`none`, a raised
FileNotFoundError or similar) if the path does not end in a directory
whose child of that name is absent or a regular file; writing through a
dangling link is outside the model. -/
def writeFileAt : Entry → List String → String → Option Entry
  | .dir cs, [n], t =>
    match cs.find? (fun c => c.1 = n) with
    | some c =>
      match c.2 with
      | .file _ => some (.dir (cs.map (fun d => if d.1 = n then (d.1, .file t) else d)))
      | _ => none
    | none => some (.dir (cs ++ [(n, .file t)]))
  | .dir cs, n :: rest, t =>
    match cs.find? (fun c => c.1 = n) with
    | some c =>
      (writeFileAt c.2 rest t).map
        (fun e2 => .dir (cs.map (fun d => if d.1 = n then (d.1, e2) else d)))
    | none => none
  | _, _, _ => none

/-- os.makedirs: creates every missing directory along the component
path.  Fails (`none`) if the final component already has an entry
(FileExistsError, the exist_ok=False default) or if an intermediate
entry is not a directory (NotADirectoryError), or on the empty path. -/
def makedirsP : Entry → List String → Option Entry
  | .dir cs, [n] =>
    match cs.find? (fun c => c.1 = n) with
    | some _ => none
    | none => some (.dir (cs ++ [(n, .dir [])]))
  | .dir cs, n :: rest =>
    match cs.find? (fun c => c.1 = n) with
    | some c =>
      (makedirsP c.2 rest).map
        (fun e2 => .dir (cs.map (fun d => if d.1 = n then (d.1, e2) else d)))
    | none =>
      (makedirsP (.dir []) rest).map (fun sub => .dir (cs ++ [(n, sub)]))
  | _, _ => none

/-- shutil.rmtree with ignore_errors=True: removes the subtree if the
path is a directory, and silently does nothing otherwise (a missing or
non-directory target only triggers the suppressed error handler). -/
def rmtreeIgnore (fs : Entry) (p : String) : Entry :=
  match lookupP fs (splitPath p) with
  | some (.dir _) => removeAtP fs (splitPath p)
  | _ => fs

/-- os.rmdir: removes an empty directory; raises on a missing path, a
non-directory, or a nonempty directory. -/
def osRmdir (fs : Entry) (p : String) : Entry × Option Err :=
  match lookupP fs (splitPath p) with
  | some (.dir []) => (removeAtP fs (splitPath p), none)
  | some (.dir _) => (fs, some (.osError "Directory not empty"))
  | some _ => (fs, some (.osError "Not a directory"))
  | none => (fs, some (.osError "No such file or directory"))

/-- One os.walk frame: (current directory path, child directory names,
child file names). -/
abbrev WalkFrame := String × List String × List String

/-- The directory-children names of a listing, in enumeration order. -/
def dirNamesOf (cs : List (String × Entry)) : List String :=
  (cs.filter (fun c => c.2.isDir)).map (fun c => c.1)

/-- The non-directory-children names of a listing (regular files and
links), in enumeration order: os.walk puts these in the filenames
component of a frame. -/
def fileNamesOf (cs : List (String × Entry)) : List String :=
  (cs.filter (fun c => !c.2.isDir)).map (fun c => c.1)

/-- Top-down traversal of a node, fuelled for termination; the fuel is
always chosen strictly larger than the tree depth, so it never runs
out. -/
def walkAux : Nat → String → Entry → List WalkFrame
  | 0, _, _ => []
  | fuel + 1, top, .dir cs =>
    (top, dirNamesOf cs, fileNamesOf cs) ::
      (cs.filter (fun c => c.2.isDir)).flatMap
        (fun c => walkAux fuel (joinPath top c.1) c.2)
  | _ + 1, _, _ => []

mutual

/-- The nesting depth of a node (0 for leaves). -/
def entryDepth : Entry → Nat
  | .dir cs => childrenDepth cs + 1
  | _ => 0

/-- The maximal depth among a listing's entries. -/
def childrenDepth : List (String × Entry) → Nat
  | [] => 0
  | c :: rest => max (entryDepth c.2) (childrenDepth rest)

end

/-- os.walk(top): top-down frames of the subtree at `top`; yields
nothing when `top` is not an existing directory. -/
def osWalk (fs : Entry) (top : String) : List WalkFrame :=
  match lookupP fs (splitPath top) with
  | some e => walkAux (entryDepth e + 1) top e
  | none => []

/-! ## The repository's functions, translated from src/kelmore_files/files.py -/

/-- FileCheck.exists: os.path.exists, which follows symlinks, so a
dangling link does not exist. -/
def FileCheck.exists (fs : Entry) (full_path : String) : Bool :=
  match lookupP fs (splitPath full_path) with
  | some (.file _) => true
  | some (.dir _) => true
  | some .link => false
  | none => false

/-- FileCheck.is_directory: os.path.isdir. -/
def FileCheck.is_directory (fs : Entry) (full_path : String) : Bool :=
  match lookupP fs (splitPath full_path) with
  | some (.dir _) => true
  | _ => false

/-- FileCheck.is_file: os.path.isfile. -/
def FileCheck.is_file (fs : Entry) (full_path : String) : Bool :=
  match lookupP fs (splitPath full_path) with
  | some (.file _) => true
  | _ => false

/-- FileCheck.is_link: os.path.islink. -/
def FileCheck.is_link (fs : Entry) (full_path : String) : Bool :=
  match lookupP fs (splitPath full_path) with
  | some .link => true
  | _ => false

/-- FileTools.concat: os.path.join, as used with two arguments. -/
def FileTools.concat (a b : String) : String := joinPath a b

/-- FileTransform.filter_by_extension: normalizes the extension to a
leading dot and keeps the paths whose os.path.splitext suffix equals
it, in order. -/
def FileTransform.filter_by_extension (file_paths : List String) (extension : String) :
    List String :=
  let ext := if extension.data.head? = some '.' then extension else "." ++ extension
  file_paths.filter (fun p => (splitextP p).2 = ext)

/-- The text content of the node at a path (empty for non-files; only
queried behind is_file guards). -/
def contentAt (fs : Entry) (full_path : String) : String :=
  match lookupP fs (splitPath full_path) with
  | some (.file t) => t
  | _ => ""

/-- FileIo.read: returns the full text when the path is an existing
file (the with-block closes the handle), None otherwise. -/
def FileIo.read (fs : Entry) (full_path : String) : Option String :=
  if FileCheck.is_file fs full_path then some (contentAt fs full_path)
  else none

/-- FileIo.delete: raises if the path is a directory; otherwise removes
the path if it exists (os.remove), else does nothing. -/
def FileIo.delete (fs : Entry) (full_path : String) : Entry × Option Err :=
  if FileCheck.is_directory fs full_path then
    (fs, some (.valueError "Given path cannot be a directory"))
  else if FileCheck.exists fs full_path then
    (removeAtP fs (splitPath full_path), none)
  else (fs, none)

/-- FileIo.unlink: os.unlink, which removes the directory entry itself
(also a dangling link) and raises when there is none. -/
def FileIo.unlink (fs : Entry) (full_path : String) : Entry × Option Err :=
  match lookupP fs (splitPath full_path) with
  | some _ => (removeAtP fs (splitPath full_path), none)
  | none => (fs, some (.osError "No such file or directory"))

/-- FileIo.save: raises "already exists" when the path exists and
overwrite is off; otherwise opens for (truncating) write through
FileIo.open, whose guard raises if the path is a directory, and writes
the text. -/
def FileIo.save (fs : Entry) (full_path text : String) (overwrite : Bool) :
    Entry × Option Err :=
  if !overwrite && FileCheck.exists fs full_path then
    (fs, some (.ioError "The given file path already exists"))
  else if FileCheck.is_directory fs full_path then
    (fs, some (.valueError "Given path cannot be a directory"))
  else
    match writeFileAt fs (splitPath full_path) text with
    | some fs2 => (fs2, none)
    | none => (fs, some (.osError "No such file or directory"))

/-- FileFind.line_number's scanning loop: the counter starts at 0 and is
incremented before each membership test of the word in the split line;
-1 when no line matches. -/
def FileFind.scanLines (word : String) : List String → Nat → Int
  | [], _ => -1
  | l :: rest, k =>
    if word ∈ pySplitWs l then Int.ofNat (k + 1)
    else FileFind.scanLines word rest (k + 1)

/-- FileFind.line_number: None unless the path is an existing file; else
the 1-based number of the first line whose whitespace-split tokens
contain the word, or -1.  (The handle opened here is never closed; see
the instrumented variant below.) -/
def FileFind.line_number (fs : Entry) (full_path word : String) : Option Int :=
  if FileCheck.is_file fs full_path then
    some (FileFind.scanLines word (pyLines (contentAt fs full_path)) 0)
  else none

/-- FileFind.line_number instrumented with handle accounting: the result
together with how many handles the call opened and how many it closed.
The source opens the file with a bare open() and returns from inside the
loop or after it without ever calling close. -/
def FileFind.line_number_handles (fs : Entry) (full_path word : String) :
    Option Int × Nat × Nat :=
  if FileCheck.is_file fs full_path then
    (some (FileFind.scanLines word (pyLines (contentAt fs full_path)) 0), 1, 0)
  else (none, 0, 0)

/-- FileIo.read instrumented with handle accounting: the with-block
closes the handle it opened on every exit path. -/
def FileIo.read_handles (fs : Entry) (full_path : String) :
    Option String × Nat × Nat :=
  if FileCheck.is_file fs full_path then (some (contentAt fs full_path), 1, 1)
  else (none, 0, 0)

/-- FileTransform.lines: the Python lines of the file when the path
exists (terminators preserved; the with-block closes the handle), None
otherwise; opening a directory raises through FileIo.open's guard. -/
def FileTransform.lines (fs : Entry) (full_path : String) :
    Except Err (Option (List String)) :=
  if FileCheck.exists fs full_path then
    if FileCheck.is_directory fs full_path then
      .error (.valueError "Given path cannot be a directory")
    else .ok (some (pyLines (contentAt fs full_path)))
  else .ok none

/-- FileTransform.lines instrumented with handle accounting: no handle
is created when FileIo.open itself raises, and the with-block closes the
handle otherwise. -/
def FileTransform.lines_handles (fs : Entry) (full_path : String) :
    Except Err (Option (List String)) × Nat × Nat :=
  if FileCheck.exists fs full_path then
    if FileCheck.is_directory fs full_path then
      (.error (.valueError "Given path cannot be a directory"), 0, 0)
    else (.ok (some (pyLines (contentAt fs full_path))), 1, 1)
  else (.ok none, 0, 0)

/-- FileDirectories._raise_error_if_file as a value: the error raised
when the given path is an existing file (which includes a symlinked
file; dangling links are not files). -/
def FileDirectories.fileError : Err :=
  .valueError "Given path must be a directory, not a file"

/-- FileDirectories.children: walks the directory, maps each frame's
directory and file names to full paths when requested, filters the file
names by extension when one is given, accumulates directories before
files per frame, and stops after the first frame unless recursive.
Raises if the path is an existing file. -/
def FileDirectories.children (fs : Entry) (directory : String)
    (recursive include_full_path : Bool) (extension : Option String) :
    Except Err (List String) :=
  if FileCheck.is_file fs directory then .error FileDirectories.fileError
  else
    let frames := osWalk fs directory
    let frames := if recursive then frames else frames.take 1
    .ok (frames.flatMap (fun fr =>
      let ds := if include_full_path then fr.2.1.map (fun x => FileTools.concat fr.1 x)
                else fr.2.1
      let fls := if include_full_path then fr.2.2.map (fun x => FileTools.concat fr.1 x)
                 else fr.2.2
      let fls := match extension with
        | some e => FileTransform.filter_by_extension fls e
        | none => fls
      ds ++ fls))

/-- FileDirectories.files: like children but keeps only each frame's
file names (root[2]); full-path mapping, then extension filtering, then
accumulation, stopping after the first frame unless recursive.  Raises
if the path is an existing file. -/
def FileDirectories.files (fs : Entry) (directory : String)
    (recursive include_full_path : Bool) (extension : Option String) :
    Except Err (List String) :=
  if FileCheck.is_file fs directory then .error FileDirectories.fileError
  else
    let frames := osWalk fs directory
    let frames := if recursive then frames else frames.take 1
    .ok (frames.flatMap (fun fr =>
      let fls := if include_full_path then fr.2.2.map (fun x => FileTools.concat fr.1 x)
                 else fr.2.2
      match extension with
      | some e => FileTransform.filter_by_extension fls e
      | none => fls))

/-- FileDirectories.directories: like children but keeps only each
frame's directory names (root[1]).  Raises if the path is an existing
file. -/
def FileDirectories.directories (fs : Entry) (directory : String)
    (recursive include_full_path : Bool) : Except Err (List String) :=
  if FileCheck.is_file fs directory then .error FileDirectories.fileError
  else
    let frames := osWalk fs directory
    let frames := if recursive then frames else frames.take 1
    .ok (frames.flatMap (fun fr =>
      if include_full_path then fr.2.1.map (fun x => FileTools.concat fr.1 x)
      else fr.2.1))

/-- FileDirectories.create: makedirs when the path does not exist (then
returns the path); None when it exists as a file; the unchanged path
otherwise. -/
def FileDirectories.create (fs : Entry) (full_path : String) :
    Entry × Except Err (Option String) :=
  if !FileCheck.exists fs full_path then
    match makedirsP fs (splitPath full_path) with
    | some fs2 => (fs2, .ok (some full_path))
    | none => (fs, .error (.osError "makedirs failed"))
  else if FileCheck.is_file fs full_path then (fs, .ok none)
  else (fs, .ok (some full_path))

/-- FileDirectories.delete: unlink a link, else os.remove a file; then
rmtree with errors ignored when recursive, os.rmdir otherwise.  The
second step runs on whatever the first step left behind. -/
def FileDirectories.delete (fs : Entry) (directory : String) (recursive : Bool) :
    Entry × Option Err :=
  let step1 :=
    if FileCheck.is_link fs directory then FileIo.unlink fs directory
    else if FileCheck.is_file fs directory then FileIo.delete fs directory
    else (fs, none)
  match step1 with
  | (fs1, some e) => (fs1, some e)
  | (fs1, none) =>
    if recursive then (rmtreeIgnore fs1 directory, none)
    else osRmdir fs1 directory

/-- Runs a unit-returning operation over a precomputed list of paths,
threading the filesystem state and stopping at the first raised error
(Python's loop semantics: prior mutations are kept). -/
def runAll (step : Entry → String → Entry × Option Err) :
    Entry → List String → Entry × Option Err
  | fs, [] => (fs, none)
  | fs, p :: rest =>
    match step fs p with
    | (fs2, none) => runAll step fs2 rest
    | (fs2, some e) => (fs2, some e)

/-- The body of FileDirectories.clear's recursive loop for one child
path: unlink links, os.remove files, and recursively delete anything
else. -/
def FileDirectories.clearStep (fs : Entry) (full_path : String) : Entry × Option Err :=
  if FileCheck.is_link fs full_path then FileIo.unlink fs full_path
  else if FileCheck.is_file fs full_path then FileIo.delete fs full_path
  else FileDirectories.delete fs full_path true

/-- FileDirectories.clear: raises if the path is an existing file;
no-op if it does not exist.  Recursive: computes the first-level
children with full paths and removes each (links unlinked, files
removed, anything else deleted recursively).  Non-recursive: computes
the first-level file names and FileIo.deletes each joined with the
directory. -/
def FileDirectories.clear (fs : Entry) (directory : String) (recursive : Bool) :
    Entry × Option Err :=
  if FileCheck.is_file fs directory then (fs, some FileDirectories.fileError)
  else if !FileCheck.exists fs directory then (fs, none)
  else if recursive then
    match FileDirectories.children fs directory false true none with
    | .error e => (fs, some e)
    | .ok cs => runAll FileDirectories.clearStep fs cs
  else
    match FileDirectories.files fs directory false false none with
    | .error e => (fs, some e)
    | .ok fls =>
      runAll (fun f name => FileIo.delete f (FileTools.concat directory name)) fs fls

/-- FileDirectories.clear_all: the file guard again, then clear with
recursive=True. -/
def FileDirectories.clear_all (fs : Entry) (directory : String) : Entry × Option Err :=
  if FileCheck.is_file fs directory then (fs, some FileDirectories.fileError)
  else FileDirectories.clear fs directory true

/-- FileDirectories.clear_files: the file guard again, then clear with
the default recursive=False. -/
def FileDirectories.clear_files (fs : Entry) (directory : String) : Entry × Option Err :=
  if FileCheck.is_file fs directory then (fs, some FileDirectories.fileError)
  else FileDirectories.clear fs directory false

/-- The while-loop of FileDirectories.parent: take the dirname `depth`
times. -/
def dirnameLoop : Nat → String → String
  | 0, p => p
  | k + 1, p => dirnameLoop k (dirname p)

/-- FileDirectories.parent: None when the path does not exist, else the
dirname taken `depth` times (a non-positive depth leaves the path
unchanged). -/
def FileDirectories.parent (fs : Entry) (full_path : String) (depth : Int) :
    Option String :=
  if !FileCheck.exists fs full_path then none
  else some (dirnameLoop depth.toNat full_path)

/-- DirectoryEntity: the one attribute the spec gives it.  The
constructor below models Python attribute assignment explicitly: a field
an __init__ does not assign holds `none` (reading it raises
AttributeError). -/
structure DirectoryWrapper where
  directory : Option String

/-- DirectoryWrapper.__init__: raises when the path exists and is not a
directory; otherwise returns.  It never assigns self.directory, so the
constructed object's `directory` field is `none`. -/
def DirectoryWrapper.construct (fs : Entry) (full_path : String) :
    Except Err DirectoryWrapper :=
  if FileCheck.exists fs full_path && !FileCheck.is_directory fs full_path then
    .error (.valueError "Give path must be a path to a directory")
  else .ok { directory := none }

/-! ## Path-splitting lemmas -/

/-- A slash inside the character stream splits the component
computation. -/
theorem splitSlashAux_slash (u : List Char) :
    ∀ (cur v : List Char),
      splitSlashAux cur (u ++ '/' :: v) = splitSlashAux cur u ++ splitSlashAux [] v := by
  induction u with
  | nil =>
    intro cur v
    by_cases hc : cur.isEmpty <;> simp [splitSlashAux, hc]
  | cons c u ih =>
    intro cur v
    by_cases hc : c = '/'
    · subst hc
      by_cases hcur : cur.isEmpty <;> simp [splitSlashAux, hcur, ih]
    · simp [splitSlashAux, hc, ih]

/-- A trailing slash does not add a component. -/
theorem splitSlashAux_trailing (u : List Char) :
    splitSlashAux [] (u ++ ['/']) = splitSlashAux [] u := by
  have h := splitSlashAux_slash u [] []
  simpa [splitSlashAux] using h

/-- On slash-free input the splitter returns the single accumulated
component (or nothing when it is empty). -/
theorem splitSlashAux_noslash (l : List Char) :
    ∀ cur : List Char, (∀ c ∈ l, c ≠ '/') →
      splitSlashAux cur l =
        if (cur.reverse ++ l).isEmpty then [] else [String.mk (cur.reverse ++ l)] := by
  induction l with
  | nil =>
    intro cur _
    simp [splitSlashAux, List.isEmpty_iff]
  | cons c l ih =>
    intro cur h
    have hc : c ≠ '/' := h c (by simp)
    have hrec := ih (c :: cur) (fun x hx => h x (by simp [hx]))
    simp only [splitSlashAux, hc, if_neg hc, hrec]
    have : (c :: cur).reverse ++ l = cur.reverse ++ c :: l := by simp
    rw [this]
    have hne : (cur.reverse ++ c :: l).isEmpty = false := by
      simp [List.isEmpty_iff]
    simp [hne]

/-- A nonempty slash-free string is its own single path component. -/
theorem splitPath_single (n : String) (hn : n ≠ "") (hs : ∀ c ∈ n.data, c ≠ '/') :
    splitPath n = [n] := by
  have hd : n.data ≠ [] := by
    intro h
    apply hn
    cases n
    simp_all
  rw [splitPath, splitSlashAux_noslash n.data [] hs]
  simp [List.isEmpty_iff, hd]

/-- Joining a nonempty slash-free name onto any base appends exactly one
component to the base's component list. -/
theorem splitPath_joinPath (d n : String) (hn : n ≠ "") (hs : ∀ c ∈ n.data, c ≠ '/') :
    splitPath (joinPath d n) = splitPath d ++ [n] := by
  have hd : n.data ≠ [] := by
    intro h
    apply hn
    cases n
    simp_all
  have hhead : n.data.head? ≠ some '/' := by
    cases hnd : n.data with
    | nil => simp
    | cons c cl =>
      have : c ≠ '/' := hs c (by simp [hnd])
      simp [this]
  rw [joinPath]
  rw [if_neg hhead]
  by_cases hemp : d.data.isEmpty
  · have hde : d.data = [] := by simpa [List.isEmpty_iff] using hemp
    rw [if_pos (by simp [hemp])]
    have h1 : (d ++ n).data = n.data := by simp [String.data_append, hde]
    have h2 : splitPath d = [] := by simp [splitPath, hde, splitSlashAux]
    rw [splitPath, h1, h2]
    simpa [splitPath] using splitPath_single n hn hs
  · by_cases hlast : d.data.getLast? = some '/'
    · rw [if_pos (by simp [hlast])]
      rcases List.eq_nil_or_concat d.data with hde | ⟨u, b, hdu⟩
      · simp [hde, List.isEmpty_iff] at hemp
      · rw [List.concat_eq_append] at hdu
        have hb : b = '/' := by
          rw [hdu, List.getLast?_concat] at hlast
          exact Option.some_injective _ hlast
        subst hb
        have h1 : (d ++ n).data = u ++ '/' :: n.data := by
          simp [String.data_append, hdu]
        rw [splitPath, h1, splitSlashAux_slash]
        have h2 : splitPath d = splitSlashAux [] u := by
          rw [splitPath, hdu, splitSlashAux_trailing]
        rw [h2]
        congr 1
        simpa [splitPath] using splitPath_single n hn hs
    · rw [if_neg (by simp [hemp, hlast])]
      have h1 : (d ++ "/" ++ n).data = d.data ++ '/' :: n.data := by
        simp [String.data_append]
      rw [splitPath, h1, splitSlashAux_slash]
      congr 1
      simpa [splitPath] using splitPath_single n hn hs

/-! ## Tree lemmas -/

/-- find? by name commutes with a name-preserving map. -/
theorem find?_map_nameKeep (g : String × Entry → String × Entry)
    (hg : ∀ c, (g c).1 = c.1) (m : String) :
    ∀ cs : List (String × Entry),
      (cs.map g).find? (fun c => c.1 = m) =
        (cs.find? (fun c => c.1 = m)).map g := by
  intro cs
  induction cs with
  | nil => simp
  | cons c cs ih =>
    by_cases hc : c.1 = m
    · simp [List.find?, hg, hc]
    · simp [List.find?, hg, hc, ih]

/-- In a listing with nodup names, entries are determined by their
name. -/
theorem nodup_fst_inj {cs : List (String × Entry)}
    (h : (cs.map Prod.fst).Nodup) {c c' : String × Entry}
    (hc : c ∈ cs) (hc' : c' ∈ cs) (heq : c.1 = c'.1) : c = c' := by
  induction cs with
  | nil => simp at hc
  | cons a l ih =>
    simp only [List.map_cons, List.nodup_cons] at h
    rcases List.mem_cons.mp hc with rfl | hcl
    · rcases List.mem_cons.mp hc' with rfl | hcl'
      · rfl
      · have hm := List.mem_map_of_mem Prod.fst hcl'
        rw [← heq] at hm
        exact absurd hm h.1
    · rcases List.mem_cons.mp hc' with rfl | hcl'
      · have hm := List.mem_map_of_mem Prod.fst hcl
        rw [heq] at hm
        exact absurd hm h.1
      · exact ih h.2 hcl hcl'

/-- Path lookup splits over list append. -/
theorem lookupP_append (a : List String) :
    ∀ (e : Entry) (b : List String),
      lookupP e (a ++ b) = (lookupP e a).bind (fun x => lookupP x b) := by
  induction a with
  | nil => intro e b; simp [lookupP]
  | cons m a ih =>
    intro e b
    cases e with
    | file t => simp [lookupP]
    | link => simp [lookupP]
    | dir cs =>
      simp only [List.cons_append, lookupP]
      cases h : cs.find? (fun c => c.1 = m) with
      | none => simp
      | some c => simpa using ih c.2 b

/-- Modifying at a resolvable path applies the function to the node
seen there. -/
theorem lookupP_modifyAtP (f : Entry → Entry) (dp : List String) :
    ∀ (fs e : Entry), lookupP fs dp = some e →
      lookupP (modifyAtP f fs dp) dp = some (f e) := by
  induction dp with
  | nil =>
    intro fs e h
    simp [lookupP] at h
    subst h
    simp [lookupP, modifyAtP]
  | cons m dp ih =>
    intro fs e h
    cases fs with
    | file t => simp [lookupP] at h
    | link => simp [lookupP] at h
    | dir cs =>
      simp only [lookupP] at h
      cases hf : cs.find? (fun c => c.1 = m) with
      | none => rw [hf] at h; exact Option.noConfusion h
      | some c =>
        rw [hf] at h
        simp only [modifyAtP, lookupP]
        rw [find?_map_nameKeep (fun c => if c.1 = m then (c.1, modifyAtP f c.2 dp) else c)
          (by intro d; by_cases hd : d.1 = m <;> simp [hd]) m cs, hf]
        have hcm : c.1 = m := by simpa using List.find?_some hf
        simp only [Option.map_some', hcm, if_pos rfl]
        exact ih c.2 e h

/-- Removing at a one-longer path is a child-erasure modification at the
parent path. -/
theorem removeAtP_snoc (fs : Entry) (dp : List String) (n : String) :
    removeAtP fs (dp ++ [n]) = modifyAtP (eraseChild n) fs dp := by
  cases dp with
  | nil => simp [removeAtP, List.getLastD]
  | cons m dp =>
    show removeAtP fs (m :: (dp ++ [n])) = _
    simp only [removeAtP, show m :: (dp ++ [n]) = (m :: dp) ++ [n] from rfl,
      List.getLastD_concat, List.dropLast_concat]

/-- Erasing the child named `n` under a directory node seen at `dp`
filters it out of the listing. -/
theorem lookupP_removeAtP_child (fs : Entry) (dp : List String) (n : String)
    (cs : List (String × Entry)) (h : lookupP fs dp = some (.dir cs)) :
    lookupP (removeAtP fs (dp ++ [n])) dp =
      some (.dir (cs.filter (fun c => !(c.1 = n)))) := by
  rw [removeAtP_snoc]
  exact lookupP_modifyAtP (eraseChild n) dp fs (.dir cs) h

/-- After removing an existing entry, its path no longer resolves. -/
theorem lookupP_removeAtP_self (fs : Entry) (p : List String) (e : Entry)
    (hne : p ≠ []) (h : lookupP fs p = some e) :
    lookupP (removeAtP fs p) p = none := by
  rcases List.eq_nil_or_concat p with rfl | ⟨dp, n, rfl⟩
  · exact absurd rfl hne
  rw [List.concat_eq_append] at *
  rw [lookupP_append] at h
  cases hpe : lookupP fs dp with
  | none => rw [hpe] at h; simp at h
  | some pe =>
    rw [hpe] at h
    simp only [Option.some_bind] at h
    cases pe with
    | file t => simp [lookupP] at h
    | link => simp [lookupP] at h
    | dir cs =>
      rw [lookupP_append, lookupP_removeAtP_child fs dp n cs hpe]
      simp only [Option.some_bind, lookupP]
      have : (cs.filter (fun c => !(c.1 = n))).find? (fun c => c.1 = n) = none := by
        rw [List.find?_eq_none]
        intro x hx
        have := (List.mem_filter.mp hx).2
        simpa using this
      rw [this]

/-- A successful truncate-write leaves the written file at the path. -/
theorem writeFileAt_lookup (p : List String) :
    ∀ (fs fs2 : Entry) (t : String), writeFileAt fs p t = some fs2 →
      lookupP fs2 p = some (.file t) := by
  induction p with
  | nil =>
    intro fs fs2 t h
    cases fs <;> simp [writeFileAt] at h
  | cons n rest ih =>
    intro fs fs2 t h
    cases fs with
    | file s => simp [writeFileAt] at h
    | link => simp [writeFileAt] at h
    | dir cs =>
      cases rest with
      | nil =>
        simp only [writeFileAt] at h
        split at h
        case h_1 c hf =>
          split at h
          case h_1 s hc2 =>
            simp only [Option.some_inj] at h
            subst h
            have hcn : c.1 = n := by simpa using List.find?_some hf
            simp only [lookupP]
            rw [find?_map_nameKeep (fun d => if d.1 = n then (d.1, Entry.file t) else d)
              (by intro d; by_cases hd : d.1 = n <;> simp [hd]) n cs, hf]
            simp [hcn, lookupP]
          case h_2 => exact Option.noConfusion h
        case h_2 hf =>
          simp only [Option.some_inj] at h
          subst h
          simp only [lookupP, List.find?_append, hf, Option.none_or]
          simp [List.find?, lookupP]
      | cons r rs =>
        simp only [writeFileAt] at h
        split at h
        case h_2 hf => exact Option.noConfusion h
        case h_1 c hf =>
          cases hw : writeFileAt c.2 (r :: rs) t with
          | none => rw [hw] at h; exact Option.noConfusion h
          | some e2 =>
            rw [hw] at h
            simp only [Option.map_some', Option.some_inj] at h
            subst h
            have hcn : c.1 = n := by simpa using List.find?_some hf
            simp only [lookupP]
            rw [find?_map_nameKeep (fun d => if d.1 = n then (d.1, e2) else d)
              (by intro d; by_cases hd : d.1 = n <;> simp [hd]) n cs, hf]
            simp [hcn]
            exact ih c.2 e2 t hw

/-- A path that was just written can be written again (the second open
for write finds a regular file there and truncates it). -/
theorem writeFileAt_again (p : List String) :
    ∀ (fs fs2 : Entry) (t t2 : String), writeFileAt fs p t = some fs2 →
      ∃ fs3, writeFileAt fs2 p t2 = some fs3 := by
  induction p with
  | nil =>
    intro fs fs2 t t2 h
    cases fs <;> simp [writeFileAt] at h
  | cons n rest ih =>
    intro fs fs2 t t2 h
    cases fs with
    | file s => simp [writeFileAt] at h
    | link => simp [writeFileAt] at h
    | dir cs =>
      cases rest with
      | nil =>
        simp only [writeFileAt] at h
        split at h
        case h_1 c hf =>
          split at h
          case h_1 s hc2 =>
            simp only [Option.some_inj] at h
            subst h
            have hcn : c.1 = n := by simpa using List.find?_some hf
            simp only [writeFileAt]
            rw [find?_map_nameKeep (fun d => if d.1 = n then (d.1, Entry.file t) else d)
              (by intro d; by_cases hd : d.1 = n <;> simp [hd]) n cs, hf]
            simp [hcn]
          case h_2 => exact Option.noConfusion h
        case h_2 hf =>
          simp only [Option.some_inj] at h
          subst h
          simp only [writeFileAt, List.find?_append, hf, Option.none_or]
          simp [List.find?]
      | cons r rs =>
        simp only [writeFileAt] at h
        split at h
        case h_2 hf => exact Option.noConfusion h
        case h_1 c hf =>
          cases hw : writeFileAt c.2 (r :: rs) t with
          | none => rw [hw] at h; exact Option.noConfusion h
          | some e2 =>
            rw [hw] at h
            simp only [Option.map_some', Option.some_inj] at h
            subst h
            have hcn : c.1 = n := by simpa using List.find?_some hf
            obtain ⟨fs3, hfs3⟩ := ih c.2 e2 t t2 hw
            simp only [writeFileAt]
            rw [find?_map_nameKeep (fun d => if d.1 = n then (d.1, e2) else d)
              (by intro d; by_cases hd : d.1 = n <;> simp [hd]) n cs, hf]
            simp [hcn, hfs3]

/-- A successful makedirs leaves a directory at the full path. -/
theorem makedirsP_lookup (p : List String) :
    ∀ (fs fs2 : Entry), makedirsP fs p = some fs2 →
      ∃ cs2, lookupP fs2 p = some (.dir cs2) := by
  induction p with
  | nil =>
    intro fs fs2 h
    cases fs <;> simp [makedirsP] at h
  | cons n rest ih =>
    intro fs fs2 h
    cases fs with
    | file s => simp [makedirsP] at h
    | link => simp [makedirsP] at h
    | dir cs =>
      cases rest with
      | nil =>
        simp only [makedirsP] at h
        split at h
        case h_1 c hf => exact Option.noConfusion h
        case h_2 hf =>
          simp only [Option.some_inj] at h
          subst h
          refine ⟨[], ?_⟩
          simp only [lookupP, List.find?_append, hf, Option.none_or]
          simp [List.find?, lookupP]
      | cons r rs =>
        simp only [makedirsP] at h
        split at h
        case h_1 c hf =>
          cases hw : makedirsP c.2 (r :: rs) with
          | none => rw [hw] at h; exact Option.noConfusion h
          | some e2 =>
            rw [hw] at h
            simp only [Option.map_some', Option.some_inj] at h
            subst h
            have hcn : c.1 = n := by simpa using List.find?_some hf
            obtain ⟨cs2, hcs2⟩ := ih c.2 e2 hw
            simp only [lookupP]
            rw [find?_map_nameKeep (fun d => if d.1 = n then (d.1, e2) else d)
              (by intro d; by_cases hd : d.1 = n <;> simp [hd]) n cs, hf]
            simp [hcn]
            exact ⟨cs2, hcs2⟩
        case h_2 hf =>
          cases hw : makedirsP (.dir []) (r :: rs) with
          | none => rw [hw] at h; exact Option.noConfusion h
          | some sub =>
            rw [hw] at h
            simp only [Option.map_some', Option.some_inj] at h
            subst h
            obtain ⟨cs2, hcs2⟩ := ih (.dir []) sub hw
            refine ⟨cs2, ?_⟩
            simp only [lookupP, List.find?_append, hf, Option.none_or]
            simpa [List.find?] using hcs2

/-! ## Specification-side characterizations -/

/-- Modelled from the spec (testable property 5 and section 4.6): the
1-based number of the first line whose whitespace-delimited tokens
contain the word, or -1 when no line does. -/
def firstTokenLineNumber (word : String) : List String → Int
  | [] => -1
  | l :: rest =>
    if word ∈ pySplitWs l then 1
    else if firstTokenLineNumber word rest = -1 then -1
    else firstTokenLineNumber word rest + 1

/-- The first-match line number is 1-based: it is -1 or at least 1. -/
theorem firstTokenLineNumber_pos (word : String) (ls : List String) :
    firstTokenLineNumber word ls = -1 ∨ 1 ≤ firstTokenLineNumber word ls := by
  induction ls with
  | nil => simp [firstTokenLineNumber]
  | cons l rest ih =>
    by_cases hw : word ∈ pySplitWs l
    · right; simp [firstTokenLineNumber, hw]
    · by_cases hr : firstTokenLineNumber word rest = -1
      · left; simp [firstTokenLineNumber, hw, hr]
      · right
        rcases ih with h | h
        · exact absurd h hr
        · simp only [firstTokenLineNumber, hw, if_neg, hr, if_false]
          omega

/-- The source's scanning loop computes the first-match line number,
shifted by the incoming counter. -/
theorem scanLines_eq (word : String) (ls : List String) :
    ∀ k : Nat, FileFind.scanLines word ls k =
      if firstTokenLineNumber word ls = -1 then -1
      else firstTokenLineNumber word ls + k := by
  induction ls with
  | nil => intro k; simp [FileFind.scanLines, firstTokenLineNumber]
  | cons l rest ih =>
    intro k
    by_cases hw : word ∈ pySplitWs l
    · simp [FileFind.scanLines, firstTokenLineNumber, hw]
      omega
    · by_cases hr : firstTokenLineNumber word rest = -1
      · simp [FileFind.scanLines, firstTokenLineNumber, hw, hr, ih]
      · have hpos : 1 ≤ firstTokenLineNumber word rest := by
          rcases firstTokenLineNumber_pos word rest with h | h
          · exact absurd h hr
          · exact h
        simp only [FileFind.scanLines, if_neg hw, ih (k + 1),
          firstTokenLineNumber, if_neg hr]
        have hne : ¬ firstTokenLineNumber word rest + 1 = -1 := by omega
        simp [hne]
        omega

/-- The scan started at 0 computes the first-match line number
exactly. -/
theorem scanLines_zero (word : String) (ls : List String) :
    FileFind.scanLines word ls 0 = firstTokenLineNumber word ls := by
  rw [scanLines_eq]
  by_cases h : firstTokenLineNumber word ls = -1 <;> simp [h]

/-- The parent while-loop is iterated dirname. -/
theorem dirnameLoop_eq_iterate (k : Nat) :
    ∀ p : String, dirnameLoop k p = dirname^[k] p := by
  induction k with
  | zero => intro p; simp [dirnameLoop]
  | succ k ih =>
    intro p
    rw [dirnameLoop, ih (dirname p), Function.iterate_succ_apply]

/-! ## First-frame and clear-loop lemmas -/

/-- os.walk of a directory starts with its own frame. -/
theorem osWalk_cons (fs : Entry) (d : String) (cs : List (String × Entry))
    (h : lookupP fs (splitPath d) = some (.dir cs)) :
    ∃ rest, osWalk fs d = (d, dirNamesOf cs, fileNamesOf cs) :: rest := by
  rw [osWalk, h]
  exact ⟨_, rfl⟩

/-- The non-recursive, full-path, unfiltered children listing of a
directory: its first-level directory names then file names, each joined
onto the directory. -/
theorem children_nonrec_full (fs : Entry) (d : String) (cs : List (String × Entry))
    (h : lookupP fs (splitPath d) = some (.dir cs)) :
    FileDirectories.children fs d false true none =
      .ok ((dirNamesOf cs).map (fun x => joinPath d x) ++
           (fileNamesOf cs).map (fun x => joinPath d x)) := by
  have hfile : FileCheck.is_file fs d = false := by simp [FileCheck.is_file, h]
  obtain ⟨rest, hw⟩ := osWalk_cons fs d cs h
  simp [FileDirectories.children, hfile, hw, List.take, FileTools.concat]

/-- The non-recursive, name-only, unfiltered files listing of a
directory: its first-level file names. -/
theorem files_nonrec_names (fs : Entry) (d : String) (cs : List (String × Entry))
    (h : lookupP fs (splitPath d) = some (.dir cs)) :
    FileDirectories.files fs d false false none = .ok (fileNamesOf cs) := by
  have hfile : FileCheck.is_file fs d = false := by simp [FileCheck.is_file, h]
  obtain ⟨rest, hw⟩ := osWalk_cons fs d cs h
  simp [FileDirectories.files, hfile, hw, List.take]

/-- A name present in a listing is found by find?. -/
theorem find?_of_mem_names {cs : List (String × Entry)} {n : String}
    (h : n ∈ cs.map Prod.fst) :
    ∃ c, cs.find? (fun x => x.1 = n) = some c ∧ c.1 = n ∧ c ∈ cs := by
  cases hf : cs.find? (fun x => x.1 = n) with
  | none =>
    exfalso
    rw [List.find?_eq_none] at hf
    obtain ⟨a, ha, han⟩ := List.mem_map.mp h
    exact (hf a ha) (by simp [han])
  | some c =>
    exact ⟨c, rfl, by simpa using List.find?_some hf, List.mem_of_find?_eq_some hf⟩

/-- Each iteration of the recursive clear loop removes exactly the
entry it names, whatever its kind, and raises nothing. -/
theorem clearStep_removes (fs : Entry) (p : String) (e : Entry)
    (h : lookupP fs (splitPath p) = some e) :
    FileDirectories.clearStep fs p = (removeAtP fs (splitPath p), none) := by
  cases e with
  | link =>
    have hl : FileCheck.is_link fs p = true := by simp [FileCheck.is_link, h]
    simp [FileDirectories.clearStep, hl, FileIo.unlink, h]
  | file t =>
    have hl : FileCheck.is_link fs p = false := by simp [FileCheck.is_link, h]
    have hf : FileCheck.is_file fs p = true := by simp [FileCheck.is_file, h]
    have hd : FileCheck.is_directory fs p = false := by simp [FileCheck.is_directory, h]
    have hex : FileCheck.exists fs p = true := by simp [FileCheck.exists, h]
    simp [FileDirectories.clearStep, hl, hf, FileIo.delete, hd, hex]
  | dir cs2 =>
    have hl : FileCheck.is_link fs p = false := by simp [FileCheck.is_link, h]
    have hf : FileCheck.is_file fs p = false := by simp [FileCheck.is_file, h]
    simp [FileDirectories.clearStep, hl, hf, FileDirectories.delete, rmtreeIgnore, h]

/-- Folding the recursive clear step over distinct well-formed child
names removes exactly those children from the directory's listing and
raises nothing. -/
theorem runAll_clearStep (dir : String) (ns : List String) :
    ∀ (fs : Entry) (cs : List (String × Entry)),
      lookupP fs (splitPath dir) = some (.dir cs) →
      (∀ n ∈ ns, n ≠ "" ∧ ∀ ch ∈ n.data, ch ≠ '/') →
      ns.Nodup →
      (∀ n ∈ ns, n ∈ cs.map Prod.fst) →
      ∃ fsE,
        runAll FileDirectories.clearStep fs (ns.map (fun n => joinPath dir n)) =
          (fsE, none) ∧
        lookupP fsE (splitPath dir) =
          some (.dir (cs.filter (fun c => decide (c.1 ∉ ns)))) := by
  induction ns with
  | nil =>
    intro fs cs hnode _ _ _
    refine ⟨fs, by simp [runAll], ?_⟩
    have hid : cs.filter (fun c => decide (c.1 ∉ ([] : List String))) = cs := by
      rw [List.filter_eq_self]
      intro a _
      simp
    rw [hid]
    exact hnode
  | cons n ns ih =>
    intro fs cs hnode hnames hnodup hmem
    obtain ⟨c0, hf, hc0n, hc0mem⟩ := find?_of_mem_names (hmem n (by simp))
    have hwf := hnames n (by simp)
    have hsp : splitPath (joinPath dir n) = splitPath dir ++ [n] :=
      splitPath_joinPath dir n hwf.1 hwf.2
    have hlk : lookupP fs (splitPath (joinPath dir n)) = some c0.2 := by
      rw [hsp, lookupP_append, hnode]
      simp [lookupP, hf]
    have hstep := clearStep_removes fs (joinPath dir n) c0.2 hlk
    have hnode2 : lookupP (removeAtP fs (splitPath (joinPath dir n))) (splitPath dir) =
        some (.dir (cs.filter (fun c => !(c.1 = n)))) := by
      rw [hsp]
      exact lookupP_removeAtP_child fs (splitPath dir) n cs hnode
    have hnodup2 := (List.nodup_cons.mp hnodup).2
    have hnmem := (List.nodup_cons.mp hnodup).1
    obtain ⟨fsE, hrun, hnodeE⟩ := ih (removeAtP fs (splitPath (joinPath dir n)))
      (cs.filter (fun c => !(c.1 = n))) hnode2
      (fun m hm => hnames m (by simp [hm]))
      hnodup2
      (fun m hm => by
        obtain ⟨a, _, han, hamem⟩ := find?_of_mem_names (hmem m (by simp [hm]))
        refine List.mem_map.mpr ⟨a, List.mem_filter.mpr ⟨hamem, ?_⟩, han⟩
        have hne : m ≠ n := fun hmn => hnmem (hmn ▸ hm)
        simp [han, hne])
    refine ⟨fsE, ?_, ?_⟩
    · simp only [List.map_cons, runAll, hstep]
      exact hrun
    · have hfin : (cs.filter (fun c => !(c.1 = n))).filter
          (fun c => decide (c.1 ∉ ns)) =
          cs.filter (fun c => decide (c.1 ∉ n :: ns)) := by
        rw [List.filter_filter]
        apply List.filter_congr
        intro c _
        by_cases h1 : c.1 = n <;> by_cases h2 : c.1 ∈ ns <;> simp [h1, h2]
      rw [hnodeE, hfin]

/-- Folding FileIo.delete over distinct well-formed non-directory child
names removes exactly the regular files among them (links fail the
exists check, so os.remove is skipped for them) and raises nothing. -/
theorem runAll_deleteFiles (dir : String) (ns : List String) :
    ∀ (fs : Entry) (cs : List (String × Entry)),
      lookupP fs (splitPath dir) = some (.dir cs) →
      (∀ n ∈ ns, n ≠ "" ∧ ∀ ch ∈ n.data, ch ≠ '/') →
      ns.Nodup →
      (cs.map Prod.fst).Nodup →
      (∀ n ∈ ns, n ∈ cs.map Prod.fst) →
      (∀ c ∈ cs, c.1 ∈ ns → c.2.isDir = false) →
      ∃ fsE,
        runAll (fun f name => FileIo.delete f (FileTools.concat dir name)) fs ns =
          (fsE, none) ∧
        lookupP fsE (splitPath dir) =
          some (.dir (cs.filter (fun c => !(decide (c.1 ∈ ns) && c.2.isFile)))) := by
  induction ns with
  | nil =>
    intro fs cs hnode _ _ _ _ _
    refine ⟨fs, by simp [runAll], ?_⟩
    have hid : cs.filter
        (fun c => !(decide (c.1 ∈ ([] : List String)) && c.2.isFile)) = cs := by
      rw [List.filter_eq_self]
      intro a _
      simp
    rw [hid]
    exact hnode
  | cons n ns ih =>
    intro fs cs hnode hnames hnodup hcsnodup hmem hkind
    obtain ⟨c0, hf, hc0n, hc0mem⟩ := find?_of_mem_names (hmem n (by simp))
    have hwf := hnames n (by simp)
    have hsp : splitPath (FileTools.concat dir n) = splitPath dir ++ [n] :=
      splitPath_joinPath dir n hwf.1 hwf.2
    have hlk : lookupP fs (splitPath (FileTools.concat dir n)) = some c0.2 := by
      rw [hsp, lookupP_append, hnode]
      simp [lookupP, hf]
    have hkd : c0.2.isDir = false := hkind c0 hc0mem (by simp [hc0n])
    have hnodup2 := (List.nodup_cons.mp hnodup).2
    have hnmem := (List.nodup_cons.mp hnodup).1
    cases hc2 : c0.2 with
    | dir cs2 =>
      rw [hc2] at hkd
      simp [Entry.isDir] at hkd
    | file t =>
      have hnd : FileCheck.is_directory fs (FileTools.concat dir n) = false := by
        simp [FileCheck.is_directory, hlk, hc2]
      have hex : FileCheck.exists fs (FileTools.concat dir n) = true := by
        simp [FileCheck.exists, hlk, hc2]
      have hstep : FileIo.delete fs (FileTools.concat dir n) =
          (removeAtP fs (splitPath (FileTools.concat dir n)), none) := by
        simp [FileIo.delete, hnd, hex]
      have hnode2 : lookupP (removeAtP fs (splitPath (FileTools.concat dir n)))
          (splitPath dir) = some (.dir (cs.filter (fun c => !(c.1 = n)))) := by
        rw [hsp]
        exact lookupP_removeAtP_child fs (splitPath dir) n cs hnode
      obtain ⟨fsE, hrun, hnodeE⟩ := ih (removeAtP fs (splitPath (FileTools.concat dir n)))
        (cs.filter (fun c => !(c.1 = n))) hnode2
        (fun m hm => hnames m (by simp [hm]))
        hnodup2
        (List.Nodup.sublist ((List.filter_sublist cs).map Prod.fst) hcsnodup)
        (fun m hm => by
          obtain ⟨a, _, han, hamem⟩ := find?_of_mem_names (hmem m (by simp [hm]))
          refine List.mem_map.mpr ⟨a, List.mem_filter.mpr ⟨hamem, ?_⟩, han⟩
          have hne : m ≠ n := fun hmn => hnmem (hmn ▸ hm)
          simp [han, hne])
        (fun c hc hcn => hkind c (List.mem_filter.mp hc).1 (by simp [hcn]))
      refine ⟨fsE, ?_, ?_⟩
      · simp only [runAll, hstep]
        exact hrun
      · have hfin : (cs.filter (fun c => !(c.1 = n))).filter
            (fun c => !(decide (c.1 ∈ ns) && c.2.isFile)) =
            cs.filter (fun c => !(decide (c.1 ∈ n :: ns) && c.2.isFile)) := by
          rw [List.filter_filter]
          apply List.filter_congr
          intro c hc
          by_cases h1 : c.1 = n
          · have hcc0 : c = c0 := nodup_fst_inj hcsnodup hc hc0mem (h1.trans hc0n.symm)
            subst hcc0
            simp [h1, hc2, Entry.isFile]
          · by_cases h2 : c.1 ∈ ns <;> simp [h1, h2]
        rw [hnodeE, hfin]
    | link =>
      have hnd : FileCheck.is_directory fs (FileTools.concat dir n) = false := by
        simp [FileCheck.is_directory, hlk, hc2]
      have hex : FileCheck.exists fs (FileTools.concat dir n) = false := by
        simp [FileCheck.exists, hlk, hc2]
      have hstep : FileIo.delete fs (FileTools.concat dir n) = (fs, none) := by
        simp [FileIo.delete, hnd, hex]
      obtain ⟨fsE, hrun, hnodeE⟩ := ih fs cs hnode
        (fun m hm => hnames m (by simp [hm]))
        hnodup2
        hcsnodup
        (fun m hm => hmem m (by simp [hm]))
        (fun c hc hcn => hkind c hc (by simp [hcn]))
      refine ⟨fsE, ?_, ?_⟩
      · simp only [runAll, hstep]
        exact hrun
      · have hfin : cs.filter (fun c => !(decide (c.1 ∈ ns) && c.2.isFile)) =
            cs.filter (fun c => !(decide (c.1 ∈ n :: ns) && c.2.isFile)) := by
          apply List.filter_congr
          intro c hc
          by_cases h1 : c.1 = n
          · have hcc0 : c = c0 := nodup_fst_inj hcsnodup hc hc0mem (h1.trans hc0n.symm)
            subst hcc0
            simp [h1, hc2, Entry.isFile]
          · by_cases h2 : c.1 ∈ ns <;> simp [h1, h2]
        rw [hnodeE, hfin]

/-- Membership in the file-name component of a listing. -/
theorem mem_fileNamesOf {cs : List (String × Entry)} {n : String}
    (h : n ∈ fileNamesOf cs) : n ∈ cs.map Prod.fst := by
  obtain ⟨c, hc, rfl⟩ := List.mem_map.mp h
  exact List.mem_map_of_mem _ (List.mem_filter.mp hc).1

/-- The first-level names, directories first, are a permutation of all
the listing's names. -/
theorem dirfile_names_perm (cs : List (String × Entry)) :
    (dirNamesOf cs ++ fileNamesOf cs).Perm (cs.map Prod.fst) := by
  have h := (List.filter_append_perm (fun c => c.2.isDir) cs).map Prod.fst
  simpa [dirNamesOf, fileNamesOf, List.map_append] using h

/-- C5: for every existing directory, non-recursive clear removes every
regular file directly inside it while keeping every subdirectory with
its contents (and leaving dangling links alone, since os.path.exists
rejects them); recursive clear empties the directory entirely while the
directory itself stays present; clear is a no-op on a nonexistent path
and raises on an existing file; and clear_all is clear with
recursive=True.  The listing hypotheses say the directory's child names
are nonempty, slash-free and distinct, as real directory entries
are. -/
theorem claim_C5 (fs : Entry) (dir : String) (r : Bool)
    (cs : List (String × Entry))
    (hnames : ∀ c ∈ cs, c.1 ≠ "" ∧ ∀ ch ∈ c.1.data, ch ≠ '/')
    (hnodup : (cs.map Prod.fst).Nodup) :
    (FileCheck.exists fs dir = false → FileDirectories.clear fs dir r = (fs, none)) ∧
    (FileCheck.is_file fs dir = true →
      FileDirectories.clear fs dir r = (fs, some FileDirectories.fileError)) ∧
    FileDirectories.clear_all fs dir = FileDirectories.clear fs dir true ∧
    (lookupP fs (splitPath dir) = some (.dir cs) →
      (∃ fs1, FileDirectories.clear fs dir false = (fs1, none) ∧
        lookupP fs1 (splitPath dir) =
          some (.dir (cs.filter (fun c => !c.2.isFile)))) ∧
      (∃ fs2, FileDirectories.clear fs dir true = (fs2, none) ∧
        lookupP fs2 (splitPath dir) = some (.dir ([] : List (String × Entry))))) := by
  refine ⟨?_, ?_, ?_, ?_⟩
  · intro hex
    have hnf : FileCheck.is_file fs dir = false := by
      rw [FileCheck.is_file]
      rw [FileCheck.exists] at hex
      cases hl : lookupP fs (splitPath dir) with
      | none => simp
      | some e => cases e <;> simp_all
    simp [FileDirectories.clear, hnf, hex]
  · intro hf
    simp [FileDirectories.clear, hf]
  · by_cases hf : FileCheck.is_file fs dir
    · simp [FileDirectories.clear_all, FileDirectories.clear, hf]
    · simp [FileDirectories.clear_all, FileDirectories.clear, hf]
  · intro hnode
    have hnf : FileCheck.is_file fs dir = false := by simp [FileCheck.is_file, hnode]
    have hex : FileCheck.exists fs dir = true := by simp [FileCheck.exists, hnode]
    constructor
    · -- non-recursive: delete the first-level file names
      have hfl := files_nonrec_names fs dir cs hnode
      have hnsnd : (fileNamesOf cs).Nodup :=
        List.Nodup.sublist ((List.filter_sublist cs).map Prod.fst) hnodup
      obtain ⟨fsE, hrun, hnodeE⟩ := runAll_deleteFiles dir (fileNamesOf cs) fs cs hnode
        (fun n hn => by
          obtain ⟨c, hc, rfl⟩ := List.mem_map.mp (mem_fileNamesOf hn)
          exact hnames c hc)
        hnsnd
        hnodup
        (fun n hn => mem_fileNamesOf hn)
        (fun c hc hcn => by
          obtain ⟨c', hc', hfst⟩ := List.mem_map.mp hcn
          have hcc' : c = c' := nodup_fst_inj hnodup hc (List.mem_filter.mp hc').1 hfst.symm
          subst hcc'
          have := (List.mem_filter.mp hc').2
          simpa using this)
      refine ⟨fsE, ?_, ?_⟩
      · simp only [FileDirectories.clear, hnf, hex, Bool.not_true, hfl]
        simpa using hrun
      · rw [hnodeE]
        have hcongr : cs.filter
            (fun c => !(decide (c.1 ∈ fileNamesOf cs) && c.2.isFile)) =
            cs.filter (fun c => !c.2.isFile) := by
          apply List.filter_congr
          intro c hc
          by_cases hcf : c.2.isFile
          · have hmemf : c.1 ∈ fileNamesOf cs := by
              refine List.mem_map.mpr ⟨c, List.mem_filter.mpr ⟨hc, ?_⟩, rfl⟩
              cases hcc : c.2 <;> simp_all [Entry.isFile, Entry.isDir]
            simp [hmemf, hcf]
          · simp [hcf]
        rw [hcongr]
    · -- recursive: remove every first-level child
      have hch := children_nonrec_full fs dir cs hnode
      have hperm := dirfile_names_perm cs
      obtain ⟨fsE, hrun, hnodeE⟩ := runAll_clearStep dir
        (dirNamesOf cs ++ fileNamesOf cs) fs cs hnode
        (fun n hn => by
          obtain ⟨c, hc, rfl⟩ := List.mem_map.mp (hperm.mem_iff.mp hn)
          exact hnames c hc)
        (hperm.nodup_iff.mpr hnodup)
        (fun n hn => hperm.mem_iff.mp hn)
      refine ⟨fsE, ?_, ?_⟩
      · simp only [FileDirectories.clear, hnf, hex, Bool.not_true, hch]
        simpa [List.map_append] using hrun
      · rw [hnodeE]
        have hnil : cs.filter
            (fun c => decide (c.1 ∉ dirNamesOf cs ++ fileNamesOf cs)) = [] := by
          rw [List.filter_eq_nil_iff]
          intro c hc
          have : c.1 ∈ dirNamesOf cs ++ fileNamesOf cs :=
            hperm.mem_iff.mpr (List.mem_map_of_mem Prod.fst hc)
          simp [this]
        rw [hnil]

/-! ## Claim theorems -/

/-- The directory tree of testable property 3: dir /d holding a.txt and
b.log and a subdirectory sub holding c.txt. -/
def fsC4 : Entry :=
  .dir [("d", .dir [("a.txt", .file "A"), ("b.log", .file "B"),
    ("sub", .dir [("c.txt", .file "C")])])]

/-- C4: on a directory with files a.txt, b.log and subdirectory
sub/c.txt, the files listing returns exactly a.txt and b.log
non-recursively and also sub's c.txt recursively, and the txt extension
filter keeps a.txt (plus sub/c.txt recursively).  Name-only mode
returns base names, so the recursive results are shown in full-path
mode, where sub/c.txt appears as /d/sub/c.txt; the claim constrains set
membership only and the computed lists are read as sets. -/
theorem claim_C4 :
    FileDirectories.files fsC4 "/d" false false none = .ok ["a.txt", "b.log"] ∧
    FileDirectories.files fsC4 "/d" true true none =
      .ok ["/d/a.txt", "/d/b.log", "/d/sub/c.txt"] ∧
    FileDirectories.files fsC4 "/d" false false (some "txt") = .ok ["a.txt"] ∧
    FileDirectories.files fsC4 "/d" true true (some "txt") =
      .ok ["/d/a.txt", "/d/sub/c.txt"] :=
  ⟨rfl, rfl, rfl, rfl⟩

/-- A small tree with a directory and a file for the wrapper claims. -/
def fsC1 : Entry := .dir [("d", .dir []), ("f", .file "x")]

/-- C1: DirectoryWrapper's constructor accepts a path that is not an
existing file (an existing directory, or a missing path), but the
object it returns carries no directory value at all: __init__ validates
and then returns without assigning self.directory, so the attribute is
unset (modelled as none) rather than equal to the given path, and every
method that reads self.directory fails.  This evaluates the constructor
at such inputs and records that the field differs from every assigned
path. -/
theorem claim_C1 :
    DirectoryWrapper.construct fsC1 "/d" = .ok { directory := none } ∧
    DirectoryWrapper.construct fsC1 "/missing" = .ok { directory := none } ∧
    ∀ p : String, (DirectoryWrapper.mk none).directory ≠ some p :=
  ⟨rfl, rfl, fun _ h => Option.noConfusion h⟩

/-- The one-file tree used for the handle-accounting and line-number
claims: /f holds two lines, the second being "foo bar". -/
def fsC9 : Entry := .dir [("f", .file "bar x\nfoo bar\n")]

/-- C9: FileIo.read and FileTransform.lines close the handle they open
(their with-blocks balance: one open, one close), but
FileFind.line_number opens a handle with a bare open() and returns
without closing it on every path through the function, so the claim
that every helper closes its handle before returning fails on
line_number. -/
theorem claim_C9 :
    FileIo.read_handles fsC9 "/f" = (some "bar x\nfoo bar\n", 1, 1) ∧
    FileTransform.lines_handles fsC9 "/f" = (.ok (some ["bar x\n", "foo bar\n"]), 1, 1) ∧
    FileFind.line_number_handles fsC9 "/f" "foo" = (some 2, 1, 0) :=
  ⟨rfl, rfl, rfl⟩

/-- A successful overwrite=false save means the guard and the directory
check passed and the truncate-write succeeded. -/
theorem save_ok_writeFileAt (fs fs1 : Entry) (P T : String)
    (h : FileIo.save fs P T false = (fs1, none)) :
    writeFileAt fs (splitPath P) T = some fs1 := by
  simp only [FileIo.save, Bool.not_false, Bool.true_and] at h
  split at h
  · simp at h
  · split at h
    · simp at h
    · split at h
      case h_1 fs2 hw =>
        simp only [Prod.mk.injEq] at h
        rw [hw, h.1]
      case h_2 hw =>
        simp at h

/-- C2: if writing text T to path P with overwrite off succeeds (so P
did not pre-exist: the guard would have raised otherwise, and the
write created it), then reading P afterwards returns exactly T. -/
theorem claim_C2 (fs fs1 : Entry) (P T : String)
    (h : FileIo.save fs P T false = (fs1, none)) :
    FileIo.read fs1 P = some T := by
  have hw := save_ok_writeFileAt fs fs1 P T h
  have hl := writeFileAt_lookup (splitPath P) fs fs1 T hw
  simp [FileIo.read, FileCheck.is_file, contentAt, hl]

/-- Witness for C2 on an initially empty root. -/
theorem claim_C2_witness :
    FileIo.read (FileIo.save (.dir []) "/t.txt" "hello" false).1 "/t.txt" =
      some "hello" :=
  claim_C2 (.dir []) (FileIo.save (.dir []) "/t.txt" "hello" false).1
    "/t.txt" "hello" rfl

/-- C3: after a successful overwrite=false write of "x" to P, a second
overwrite=false write raises "already exists" and leaves the filesystem
(hence the file's content) untouched, while a second write with
overwrite=true succeeds and a read then returns "x". -/
theorem claim_C3 (fs fs1 : Entry) (P : String)
    (h : FileIo.save fs P "x" false = (fs1, none)) :
    FileIo.save fs1 P "x" false =
      (fs1, some (.ioError "The given file path already exists")) ∧
    ∃ fs2, FileIo.save fs1 P "x" true = (fs2, none) ∧
      FileIo.read fs2 P = some "x" := by
  have hw := save_ok_writeFileAt fs fs1 P "x" h
  have hl := writeFileAt_lookup (splitPath P) fs fs1 "x" hw
  have hex : FileCheck.exists fs1 P = true := by simp [FileCheck.exists, hl]
  have hnd : FileCheck.is_directory fs1 P = false := by
    simp [FileCheck.is_directory, hl]
  constructor
  · simp [FileIo.save, hex]
  · obtain ⟨fs2, hw2⟩ := writeFileAt_again (splitPath P) fs fs1 "x" "x" hw
    refine ⟨fs2, ?_, ?_⟩
    · simp [FileIo.save, hnd, hw2]
    · have hl2 := writeFileAt_lookup (splitPath P) fs1 fs2 "x" hw2
      simp [FileIo.read, FileCheck.is_file, contentAt, hl2]

/-- Witness for C3 on an initially empty root. -/
theorem claim_C3_witness :
    FileIo.save (FileIo.save (.dir []) "/t.txt" "x" false).1 "/t.txt" "x" false =
      ((FileIo.save (.dir []) "/t.txt" "x" false).1,
        some (.ioError "The given file path already exists")) ∧
    ∃ fs2, FileIo.save (FileIo.save (.dir []) "/t.txt" "x" false).1 "/t.txt" "x" true =
        (fs2, none) ∧ FileIo.read fs2 "/t.txt" = some "x" :=
  claim_C3 (.dir []) (FileIo.save (.dir []) "/t.txt" "x" false).1 "/t.txt" rfl

/-- C6: line_number returns the empty sentinel (None) whenever the path
is not an existing file; on a file it scans the Python lines in order
with 1-based numbering and returns the number of the first line whose
whitespace-delimited tokens contain the word, or -1 when no line
matches (firstTokenLineNumber states that first-match semantics
directly, and tokens mean str.split(), not substrings). -/
theorem claim_C6 (fs : Entry) (full_path word : String) :
    (FileCheck.is_file fs full_path = false →
      FileFind.line_number fs full_path word = none) ∧
    (FileCheck.is_file fs full_path = true →
      FileFind.line_number fs full_path word =
        some (firstTokenLineNumber word (pyLines (contentAt fs full_path)))) := by
  constructor
  · intro h
    simp [FileFind.line_number, h]
  · intro h
    simp [FileFind.line_number, h, scanLines_zero]

/-- Witness for C6: on a file whose second line is "foo bar", the word
foo is found on line 2, the non-token substring fo is not found (-1),
and a missing path gives None. -/
theorem claim_C6_witness :
    FileFind.line_number fsC9 "/f" "foo" = some 2 ∧
    FileFind.line_number fsC9 "/f" "fo" = some (-1) ∧
    FileFind.line_number fsC9 "/missing" "foo" = none :=
  ⟨((claim_C6 fsC9 "/f" "foo").2 rfl).trans (by decide),
   ((claim_C6 fsC9 "/f" "fo").2 rfl).trans (by decide),
   (claim_C6 fsC9 "/missing" "foo").1 rfl⟩

/-- C7: parent returns the empty sentinel (None) when the path does not
exist, and otherwise strips exactly depth.toNat trailing components by
repeatedly taking the dirname (the loop runs while depth > 0). -/
theorem claim_C7 (fs : Entry) (full_path : String) (depth : Int) :
    (FileCheck.exists fs full_path = false →
      FileDirectories.parent fs full_path depth = none) ∧
    (FileCheck.exists fs full_path = true →
      FileDirectories.parent fs full_path depth =
        some (dirname^[depth.toNat] full_path)) := by
  constructor
  · intro h
    simp [FileDirectories.parent, h]
  · intro h
    simp [FileDirectories.parent, h, dirnameLoop_eq_iterate]

/-- The nested tree holding /a/b/c/d.txt for the parent witness. -/
def fsC7 : Entry :=
  .dir [("a", .dir [("b", .dir [("c", .dir [("d.txt", .file "D")])])])]

/-- Witness for C7: two dirnames of /a/b/c/d.txt give /a/b when the
path exists, and a missing path gives None. -/
theorem claim_C7_witness :
    FileDirectories.parent fsC7 "/a/b/c/d.txt" 2 = some "/a/b" ∧
    FileDirectories.parent fsC7 "/a/b/zzz" 2 = none :=
  ⟨((claim_C7 fsC7 "/a/b/c/d.txt" 2).2 rfl).trans (by decide),
   (claim_C7 fsC7 "/a/b/zzz" 2).1 rfl⟩

/-- C8: create makedirs the whole chain and returns the path when the
path has no entry and the chain is creatable (every existing ancestor a
directory, which is what a successful makedirs means); returns the path
with no mutation when the path is an existing directory; and returns
None, raising nothing, when the path is an existing file. -/
theorem claim_C8 (fs : Entry) (full_path : String) :
    (FileCheck.exists fs full_path = false →
      ∀ fs2, makedirsP fs (splitPath full_path) = some fs2 →
        FileDirectories.create fs full_path = (fs2, .ok (some full_path)) ∧
        FileCheck.is_directory fs2 full_path = true) ∧
    (FileCheck.is_directory fs full_path = true →
      FileDirectories.create fs full_path = (fs, .ok (some full_path))) ∧
    (FileCheck.is_file fs full_path = true →
      FileDirectories.create fs full_path = (fs, .ok none)) := by
  refine ⟨?_, ?_, ?_⟩
  · intro hex fs2 hmk
    constructor
    · simp [FileDirectories.create, hex, hmk]
    · obtain ⟨cs2, hcs2⟩ := makedirsP_lookup (splitPath full_path) fs fs2 hmk
      simp [FileCheck.is_directory, hcs2]
  · intro hd
    have hex : FileCheck.exists fs full_path = true := by
      rw [FileCheck.is_directory] at hd
      rw [FileCheck.exists]
      cases hl : lookupP fs (splitPath full_path) with
      | none => simp_all
      | some e => cases e <;> simp_all
    have hnf : FileCheck.is_file fs full_path = false := by
      rw [FileCheck.is_directory] at hd
      rw [FileCheck.is_file]
      cases hl : lookupP fs (splitPath full_path) with
      | none => simp_all
      | some e => cases e <;> simp_all
    simp [FileDirectories.create, hex, hnf]
  · intro hf
    have hex : FileCheck.exists fs full_path = true := by
      rw [FileCheck.is_file] at hf
      rw [FileCheck.exists]
      cases hl : lookupP fs (splitPath full_path) with
      | none => simp_all
      | some e => cases e <;> simp_all
    simp [FileDirectories.create, hex, hf]

/-- Witness for C8: creating the missing chain /a/b next to an existing
file, the no-mutation return on an existing directory, and the None
return on an existing file. -/
theorem claim_C8_witness :
    FileDirectories.create fsC1 "/a/b" =
      (.dir [("d", .dir []), ("f", .file "x"),
        ("a", .dir [("b", .dir [])])], .ok (some "/a/b")) ∧
    FileDirectories.create fsC1 "/d" = (fsC1, .ok (some "/d")) ∧
    FileDirectories.create fsC1 "/f" = (fsC1, .ok none) :=
  ⟨((claim_C8 fsC1 "/a/b").1 rfl
      (.dir [("d", .dir []), ("f", .file "x"), ("a", .dir [("b", .dir [])])]) rfl).1,
   (claim_C8 fsC1 "/d").2.1 rfl,
   (claim_C8 fsC1 "/f").2.2 rfl⟩

/-- C10: deleting an existing plain (non-link) file with
recursive=False first removes the file (os.remove runs before the
directory step) and then raises, because os.rmdir is still executed on
the now-missing path; the mutation is kept despite the error.  With
recursive=True the trailing rmtree ignores the missing target, so the
same call removes the file and succeeds. -/
theorem claim_C10 (fs : Entry) (p : String) (t : String)
    (hne : splitPath p ≠ [])
    (h : lookupP fs (splitPath p) = some (.file t)) :
    FileDirectories.delete fs p false =
      (removeAtP fs (splitPath p), some (.osError "No such file or directory")) ∧
    lookupP (removeAtP fs (splitPath p)) (splitPath p) = none ∧
    FileDirectories.delete fs p true = (removeAtP fs (splitPath p), none) := by
  have hl : FileCheck.is_link fs p = false := by simp [FileCheck.is_link, h]
  have hf : FileCheck.is_file fs p = true := by simp [FileCheck.is_file, h]
  have hnd : FileCheck.is_directory fs p = false := by
    simp [FileCheck.is_directory, h]
  have hex : FileCheck.exists fs p = true := by simp [FileCheck.exists, h]
  have hgone := lookupP_removeAtP_self fs (splitPath p) (.file t) hne h
  refine ⟨?_, hgone, ?_⟩
  · simp [FileDirectories.delete, hl, hf, FileIo.delete, hnd, hex, osRmdir, hgone]
  · simp [FileDirectories.delete, hl, hf, FileIo.delete, hnd, hex, rmtreeIgnore, hgone]

/-- Witness for C10 at the concrete file /f: the non-recursive delete
removes it and raises, the recursive delete removes it silently. -/
theorem claim_C10_witness :
    FileDirectories.delete fsC1 "/f" false =
      (.dir [("d", .dir [])], some (.osError "No such file or directory")) ∧
    FileDirectories.delete fsC1 "/f" true = (.dir [("d", .dir [])], none) :=
  ⟨((claim_C10 fsC1 "/f" "x" (by decide) rfl).1).trans rfl,
   ((claim_C10 fsC1 "/f" "x" (by decide) rfl).2.2).trans rfl⟩

/-- The listing of /d in the C5 witness tree: two regular files, a
dangling link and a nested subdirectory. -/
def csC5 : List (String × Entry) :=
  [("a.txt", .file "A"), ("b.log", .file "B"), ("lnk", .link),
   ("sub", .dir [("c.txt", .file "C"), ("deep", .dir [("e", .file "E")])])]

/-- The C5 witness tree. -/
def fsC5 : Entry := .dir [("d", .dir csC5)]

/-- Witness for C5: clearing /d non-recursively keeps the subdirectory
(and its whole contents) and the dangling link while dropping the
files; clearing recursively leaves /d existing and empty. -/
theorem claim_C5_witness :
    (∃ fs1, FileDirectories.clear fsC5 "/d" false = (fs1, none) ∧
      lookupP fs1 (splitPath "/d") =
        some (.dir (csC5.filter (fun c => !c.2.isFile)))) ∧
    (∃ fs2, FileDirectories.clear fsC5 "/d" true = (fs2, none) ∧
      lookupP fs2 (splitPath "/d") = some (.dir ([] : List (String × Entry)))) :=
  (claim_C5 fsC5 "/d" false csC5 (by decide) (by decide)).2.2.2 rfl
